import Mathlib

/-!
Verification development for the ECDSA in-circuit verification gadget
(EcdsaChip.verify in src/circuit/ecdsa.rs of halo2wrong).

The gadget is a straight-line sequence of chip calls threading a mutable
row offset and short-circuiting on errors.  The integer chip and the
elliptic-curve chip it calls live outside the provided sources, so their
operations are modelled from the repository specification: field elements
are residue-number-system limb lists, the curve group is an additive
commutative monoid acted on by the scalar field, scalar multiplication is
windowed double-and-add, and inversion is modular inversion in the scalar
field.

The embedding has two layers.  The structural layer (`Chips`, `verify`)
mirrors the Rust function verbatim: `verify` invokes abstract chip
operations in source order, logs each invocation as an `OpCall`, threads
the offset, and propagates the first error.  The semantic layer
(`semChips`) instantiates the chip interface with the spec-modelled
arithmetic.
-/

namespace Halo2Ecdsa

/-- Limb vector of a non-native (residue-number-system) integer, least
significant limb first.  Models the limbs of an AssignedInteger. -/
abbrev AssignedInteger : Type := List Nat

/-- Canonical decomposition of a value into L limbs in base B. -/
def canonLimbs (L B v : ℕ) : AssignedInteger :=
  match L with
  | 0 => []
  | Nat.succ L => v % B :: canonLimbs L B (v / B)

/-- Integer value denoted by a limb vector in base B. -/
def intVal (B : ℕ) : AssignedInteger → ℕ
  | [] => 0
  | d :: ds => d + B * intVal B ds

lemma intVal_canonLimbs (L B v : ℕ) (h : v < B ^ L) :
    intVal B (canonLimbs L B v) = v := by
  induction L generalizing v with
  | zero =>
    have h0 : v = 0 := by simpa using h
    simp [canonLimbs, intVal, h0]
  | succ L ih =>
    rcases Nat.eq_zero_or_pos B with hB | hB
    · subst hB
      simp [pow_succ] at h
    · have hdiv : v / B < B ^ L := by
        rw [Nat.div_lt_iff_lt_mul hB, ← pow_succ]
        exact h
      simp only [canonLimbs, intVal, ih _ hdiv]
      exact Nat.mod_add_div v B

lemma canonLimbs_length (L B v : ℕ) : (canonLimbs L B v).length = L := by
  induction L generalizing v with
  | zero => simp [canonLimbs]
  | succ L ih => simp [canonLimbs, ih]

/-- Fuel-indexed windowed (base b) double-and-add ladder: the scalar k is
consumed one base-b digit at a time, the running point is multiplied by b
(a chain of doublings for b a power of two) between digits.  Models the
windowed scalar multiplication of the elliptic-curve chip. -/
def wmulFuel {P : Type} [AddCommMonoid P] (b : ℕ) : ℕ → P → ℕ → P
  | 0, _, _ => 0
  | fuel + 1, pt, k => if k = 0 then 0 else (k % b) • pt + wmulFuel b fuel (b • pt) (k / b)

/-- Windowed scalar multiplication with window size w: digits in base 2 ^ w.
Modelled from the spec: windowed double-and-add scalar multiplication with
a window-size parameter. -/
def wmul {P : Type} [AddCommMonoid P] (w : ℕ) (pt : P) (k : ℕ) : P :=
  wmulFuel (2 ^ w) k pt k

lemma wmulFuel_eq {P : Type} [AddCommMonoid P] (b : ℕ) (hb : 2 ≤ b) :
    ∀ (fuel k : ℕ) (pt : P), k ≤ fuel → wmulFuel b fuel pt k = k • pt := by
  intro fuel
  induction fuel with
  | zero =>
    intro k pt hk
    have h0 : k = 0 := Nat.le_zero.mp hk
    simp [wmulFuel, h0]
  | succ f ih =>
    intro k pt hk
    by_cases h0 : k = 0
    · simp [wmulFuel, h0]
    · have hbpos : 0 < b := by omega
      have hlt : k / b < k := Nat.div_lt_self (Nat.pos_of_ne_zero h0) (by omega)
      have hle : k / b ≤ f := by omega
      rw [wmulFuel, if_neg h0, ih (k / b) (b • pt) hle, smul_smul, ← add_smul]
      congr 1
      rw [Nat.mul_comm]
      exact Nat.mod_add_div k b

/-- The window size is not a correctness parameter: for every window size
of at least one, windowed double-and-add computes the scalar multiple. -/
lemma wmul_eq {P : Type} [AddCommMonoid P] (w : ℕ) (hw : 1 ≤ w) (pt : P) (k : ℕ) :
    wmul w pt k = k • pt := by
  have hb : 2 ≤ 2 ^ w := by
    calc 2 = 2 ^ 1 := by norm_num
    _ ≤ 2 ^ w := Nat.pow_le_pow_right (by norm_num) hw
  exact wmulFuel_eq (2 ^ w) hb k k pt le_rfl

/-- Modular inverse in ZMod n, computed as the power n - 2.  For prime n
and nonzero argument this is the multiplicative inverse; models the
invert operation of the scalar-field integer chip. -/
def zinv (n : ℕ) (x : ZMod n) : ZMod n := x ^ (n - 2)

lemma zinv_mul_cancel (n : ℕ) [hp : Fact (Nat.Prime n)] (x : ZMod n) (hx : x ≠ 0) :
    x * zinv n x = 1 := by
  have h2 : 2 ≤ n := hp.out.two_le
  have hfermat : x ^ (n - 1) = 1 := ZMod.pow_card_sub_one_eq_one hx
  have hsucc : n - 2 + 1 = n - 1 := by omega
  calc x * zinv n x = x ^ (n - 2 + 1) := by rw [zinv, pow_succ, mul_comm]
  _ = 1 := by rw [hsucc, hfermat]

/-- Assigned ECDSA signature: the pair (r, s) of scalar-field integers.
Mirrors AssignedEcdsaSig in the source. -/
structure AssignedEcdsaSig where
  r : AssignedInteger
  s : AssignedInteger
  deriving DecidableEq

/-- Assigned elliptic-curve point: the underlying group element together
with the limb vector of its x coordinate as a base-field integer. -/
structure AssignedPoint (Pt : Type) where
  point : Pt
  xLimbs : AssignedInteger
  deriving DecidableEq

/-- Mirrors AssignedPoint.get_x in the source: the x coordinate of an
assigned point, as a base-field integer. -/
def AssignedPoint.getX {Pt : Type} (q : AssignedPoint Pt) : AssignedInteger := q.xLimbs

/-- Assigned public key: a single assigned curve point.  Mirrors
AssignedPublicKey in the source. -/
structure AssignedPublicKey (Pt : Type) where
  point : AssignedPoint Pt
  deriving DecidableEq

/-- Error kinds of the chip layer, from the spec error taxonomy. -/
inductive Err where
  | zeroValue
  | nonInvertible
  | synthesis
  deriving DecidableEq

/-- Row costs of the individual chip operations.  The cost of a windowed
scalar multiplication may depend on the window size. -/
structure Costs where
  anz : ℕ
  inv : ℕ
  mul : ℕ
  assignPoint : ℕ
  eccMul : ℕ → ℕ
  eccAdd : ℕ
  reduce : ℕ
  strictEq : ℕ

/-- Interface of the external integer and elliptic-curve chips consumed by
the gadget, modelled from the spec (section 6).  Every operation takes the
current row offset and returns its result together with the advanced
offset, or a synthesis error.  `configuredWindow` records the window size
chosen in the caller configuration (used by the caller when assigning
auxiliary points); `generator` is the curve generator. -/
structure Chips (ε : Type) (Pt : Type) where
  configuredWindow : ℕ
  generator : Pt
  assertNotZero : AssignedInteger → ℕ → Except ε (Unit × ℕ)
  invert : AssignedInteger → ℕ → Except ε ((AssignedInteger × Bool) × ℕ)
  mulInt : AssignedInteger → AssignedInteger → ℕ → Except ε (AssignedInteger × ℕ)
  assignPoint : Option Pt → ℕ → Except ε (AssignedPoint Pt × ℕ)
  eccMul : AssignedPoint Pt → AssignedInteger → ℕ → ℕ → Except ε (AssignedPoint Pt × ℕ)
  eccAdd : AssignedPoint Pt → AssignedPoint Pt → ℕ → Except ε (AssignedPoint Pt × ℕ)
  reduceBase : AssignedInteger → ℕ → Except ε (AssignedInteger × ℕ)
  reduceScalar : AssignedInteger → ℕ → Except ε (AssignedInteger × ℕ)
  assertStrictEqual : AssignedInteger → AssignedInteger → ℕ → Except ε (Unit × ℕ)

/-- Record of one chip invocation made by `verify`: the operation, its
arguments and the row offset at which it was invoked. -/
inductive OpCall (Pt : Type) where
  | assertNotZero (a : AssignedInteger) (offset : ℕ)
  | invert (a : AssignedInteger) (offset : ℕ)
  | mulInt (a b : AssignedInteger) (offset : ℕ)
  | assignPoint (pt : Option Pt) (offset : ℕ)
  | eccMul (pt : AssignedPoint Pt) (scalar : AssignedInteger) (window : ℕ) (offset : ℕ)
  | eccAdd (p q : AssignedPoint Pt) (offset : ℕ)
  | reduceBase (a : AssignedInteger) (offset : ℕ)
  | reduceScalar (a : AssignedInteger) (offset : ℕ)
  | assertStrictEqual (a b : AssignedInteger) (offset : ℕ)
  | rangeAssert (a : AssignedInteger) (offset : ℕ)
  deriving DecidableEq

/-- Row offset at which an operation was invoked. -/
def opOffset {Pt : Type} : OpCall Pt → ℕ
  | .assertNotZero _ o => o
  | .invert _ o => o
  | .mulInt _ _ o => o
  | .assignPoint _ o => o
  | .eccMul _ _ _ o => o
  | .eccAdd _ _ o => o
  | .reduceBase _ o => o
  | .reduceScalar _ o => o
  | .assertStrictEqual _ _ o => o
  | .rangeAssert _ o => o

/-- Whether an operation is a stand-alone range assertion. -/
def OpCall.isRangeCheck {Pt : Type} : OpCall Pt → Bool
  | .rangeAssert _ _ => true
  | _ => false

/-- Shape of an operation: the constraint kind it emits (and the window
size for scalar multiplications), with all witness-dependent arguments and
offsets erased. -/
inductive OpShape where
  | assertNotZero
  | invert
  | mulInt
  | assignPoint
  | eccMul (window : ℕ)
  | eccAdd
  | reduceBase
  | reduceScalar
  | assertStrictEqual
  | rangeAssert
  deriving DecidableEq

/-- Shape of an invocation record. -/
def opShape {Pt : Type} : OpCall Pt → OpShape
  | .assertNotZero _ _ => .assertNotZero
  | .invert _ _ => .invert
  | .mulInt _ _ _ => .mulInt
  | .assignPoint _ _ => .assignPoint
  | .eccMul _ _ w _ => .eccMul w
  | .eccAdd _ _ _ => .eccAdd
  | .reduceBase _ _ => .reduceBase
  | .reduceScalar _ _ => .reduceScalar
  | .assertStrictEqual _ _ _ => .assertStrictEqual
  | .rangeAssert _ _ => .rangeAssert

/-- Window sizes of the scalar multiplications in an invocation list. -/
def windowsOf {Pt : Type} (l : List (OpCall Pt)) : List ℕ :=
  l.filterMap fun op =>
    match op with
    | .eccMul _ _ w _ => some w
    | _ => none

/-- One logged chip invocation: the record paired with the raw result. -/
def call {ε α Pt : Type} (op : OpCall Pt) (r : Except ε (α × ℕ)) :
    List (OpCall Pt) × Except ε (α × ℕ) := ([op], r)

/-- Sequencing of logged invocations, short-circuiting on errors exactly
as the question-mark operator does in the Rust source. -/
def andThen {ε α β Pt : Type} (x : List (OpCall Pt) × Except ε (α × ℕ))
    (f : α → ℕ → List (OpCall Pt) × Except ε β) : List (OpCall Pt) × Except ε β :=
  match x with
  | (l, .error e) => (l, .error e)
  | (l, .ok (a, o)) => (l ++ (f a o).1, (f a o).2)

@[simp] lemma andThen_ok {ε α β Pt : Type} (l : List (OpCall Pt)) (a : α) (o : ℕ)
    (f : α → ℕ → List (OpCall Pt) × Except ε β) :
    andThen (l, Except.ok (a, o)) f = (l ++ (f a o).1, (f a o).2) := rfl

@[simp] lemma andThen_error {ε α β Pt : Type} (l : List (OpCall Pt)) (e : ε)
    (f : α → ℕ → List (OpCall Pt) × Except ε β) :
    andThen (l, Except.error e) f = (l, Except.error e) := rfl

/-- Boolean success of an Except result. -/
def okB {ε α : Type} : Except ε α → Bool
  | .ok _ => true
  | .error _ => false

@[simp] lemma okB_ok {ε α : Type} (a : α) : okB (Except.ok a : Except ε α) = true := rfl

@[simp] lemma okB_error {ε α : Type} (e : ε) :
    okB (Except.error e : Except ε α) = false := rfl

/-- Error component of an Except result, if any. -/
def errOf {ε α : Type} : Except ε α → Option ε
  | .ok _ => none
  | .error e => some e

@[simp] lemma errOf_ok {ε α : Type} (a : α) : errOf (Except.ok a : Except ε α) = none := rfl

@[simp] lemma errOf_error {ε α : Type} (e : ε) :
    errOf (Except.error e : Except ε α) = some e := rfl

/-- Shallow embedding of EcdsaChip.verify (src/circuit/ecdsa.rs, lines
70-113).  The chip calls appear in source order; each call is logged with
its arguments and the offset at which it was made; the offset returned by
each call is threaded into the next; the first error aborts the sequence
and is returned unchanged.  The window size passed to both scalar
multiplications is the literal 2, as in the source. -/
def verify {ε Pt : Type} (ch : Chips ε Pt) (sig : AssignedEcdsaSig)
    (pk : AssignedPublicKey Pt) (msgHash : AssignedInteger) (offset : ℕ) :
    List (OpCall Pt) × Except ε ℕ :=
  andThen (call (.assertNotZero sig.r offset) (ch.assertNotZero sig.r offset)) fun _ o1 =>
  andThen (call (.assertNotZero sig.s o1) (ch.assertNotZero sig.s o1)) fun _ o2 =>
  andThen (call (.invert sig.s o2) (ch.invert sig.s o2)) fun sInvPair o3 =>
  andThen (call (.mulInt msgHash sInvPair.1 o3) (ch.mulInt msgHash sInvPair.1 o3)) fun u1 o4 =>
  andThen (call (.mulInt sig.r sInvPair.1 o4) (ch.mulInt sig.r sInvPair.1 o4)) fun u2 o5 =>
  andThen (call (.assignPoint (some ch.generator) o5)
    (ch.assignPoint (some ch.generator) o5)) fun eGen o6 =>
  andThen (call (.eccMul eGen u1 2 o6) (ch.eccMul eGen u1 2 o6)) fun g1 o7 =>
  andThen (call (.eccMul pk.point u2 2 o7) (ch.eccMul pk.point u2 2 o7)) fun g2 o8 =>
  andThen (call (.eccAdd g1 g2 o8) (ch.eccAdd g1 g2 o8)) fun q o9 =>
  andThen (call (.reduceBase q.getX o9) (ch.reduceBase q.getX o9)) fun qxq o10 =>
  andThen (call (.reduceScalar qxq o10) (ch.reduceScalar qxq o10)) fun qxr o11 =>
  andThen (call (.assertStrictEqual qxr sig.r o11)
    (ch.assertStrictEqual qxr sig.r o11)) fun _ o12 =>
  ([], Except.ok o12)

/-- Result of re-running the chip operation recorded by an invocation:
the error it reports, if any. -/
def opErr {ε Pt : Type} (ch : Chips ε Pt) : OpCall Pt → Option ε
  | .assertNotZero a o => errOf (ch.assertNotZero a o)
  | .invert a o => errOf (ch.invert a o)
  | .mulInt a b o => errOf (ch.mulInt a b o)
  | .assignPoint pt o => errOf (ch.assignPoint pt o)
  | .eccMul pt sc w o => errOf (ch.eccMul pt sc w o)
  | .eccAdd a b o => errOf (ch.eccAdd a b o)
  | .reduceBase a o => errOf (ch.reduceBase a o)
  | .reduceScalar a o => errOf (ch.reduceScalar a o)
  | .assertStrictEqual a b o => errOf (ch.assertStrictEqual a b o)
  | .rangeAssert _ _ => none

/-- Shapes of the twelve chip invocations of a complete verification. -/
def fullShapeList : List OpShape :=
  [.assertNotZero, .assertNotZero, .invert, .mulInt, .mulInt, .assignPoint,
   .eccMul 2, .eccMul 2, .eccAdd, .reduceBase, .reduceScalar, .assertStrictEqual]

/-- Assigned form of a curve point: the group element together with the
canonical limb vector of its x coordinate. -/
def mkPoint {p : ℕ} (L B : ℕ) {Pt : Type} (xc : Pt → ZMod p) (pt : Pt) : AssignedPoint Pt :=
  ⟨pt, canonLimbs L B ((xc pt).val)⟩

/-- Modelled from the spec: the semantics of the external integer and
elliptic-curve chips (spec sections 2 and 6), which live outside the
provided sources.  Scalar-field integers are limb vectors whose value is
taken modulo n, base-field integers modulo p; the curve group is an
additive commutative monoid Pt with generator G and x-coordinate function
xc; the nonzero assertion fails on a zero or out-of-field value (the
bundled in-field check); invert fails on a zero scalar; multiplication and
the two reductions return canonical limb vectors; strict equality compares
limb vectors cell by cell; scalar multiplication is windowed
double-and-add.  Each operation advances the offset by its row cost. -/
def semChips (n p L B : ℕ) {Pt : Type} [AddCommMonoid Pt]
    (G : Pt) (xc : Pt → ZMod p) (cw : ℕ) (c : Costs) : Chips Err Pt where
  configuredWindow := cw
  generator := G
  assertNotZero := fun a off =>
    if intVal B a = 0 ∨ n ≤ intVal B a then Except.error Err.zeroValue
    else Except.ok ((), off + c.anz)
  invert := fun a off =>
    if ((intVal B a : ℕ) : ZMod n) = 0 then Except.error Err.nonInvertible
    else Except.ok ((canonLimbs L B (zinv n ((intVal B a : ℕ) : ZMod n)).val, false), off + c.inv)
  mulInt := fun a b off =>
    Except.ok (canonLimbs L B (((intVal B a : ℕ) : ZMod n) * ((intVal B b : ℕ) : ZMod n)).val,
      off + c.mul)
  assignPoint := fun opt off =>
    match opt with
    | some pt => Except.ok (mkPoint L B xc pt, off + c.assignPoint)
    | none => Except.error Err.synthesis
  eccMul := fun pt sc w off =>
    Except.ok (mkPoint L B xc (wmul w pt.point (intVal B sc)), off + c.eccMul w)
  eccAdd := fun a b off =>
    Except.ok (mkPoint L B xc (a.point + b.point), off + c.eccAdd)
  reduceBase := fun a off => Except.ok (canonLimbs L B (intVal B a % p), off + c.reduce)
  reduceScalar := fun a off => Except.ok (canonLimbs L B (intVal B a % n), off + c.reduce)
  assertStrictEqual := fun a b off =>
    if a = b then Except.ok ((), off + c.strictEq) else Except.error Err.synthesis

/-- Scalar-field value of w = s inverse, as computed by the invert call. -/
def semW (n B : ℕ) (s : AssignedInteger) : ZMod n :=
  zinv n ((intVal B s : ℕ) : ZMod n)

/-- Limb vector of w = s inverse returned by the invert call. -/
def semWL (n L B : ℕ) (s : AssignedInteger) : AssignedInteger :=
  canonLimbs L B (semW n B s).val

/-- Limb vector of u1 = msgHash times w, as computed by the first scalar
multiplication from the limb vectors of msgHash and w. -/
def semU1 (n L B : ℕ) (mh s : AssignedInteger) : AssignedInteger :=
  canonLimbs L B
    (((intVal B mh : ℕ) : ZMod n) * ((intVal B (semWL n L B s) : ℕ) : ZMod n)).val

/-- Limb vector of u2 = r times w, as computed by the second scalar
multiplication from the limb vectors of r and w. -/
def semU2 (n L B : ℕ) (r s : AssignedInteger) : AssignedInteger :=
  canonLimbs L B
    (((intVal B r : ℕ) : ZMod n) * ((intVal B (semWL n L B s) : ℕ) : ZMod n)).val

/-- Group element Q = u1 G + u2 pk computed by the two windowed scalar
multiplications (window size 2) and the point addition. -/
def semQ (n L B : ℕ) {Pt : Type} [AddCommMonoid Pt] (G pkpt : Pt)
    (r s mh : AssignedInteger) : Pt :=
  wmul 2 G (intVal B (semU1 n L B mh s)) + wmul 2 pkpt (intVal B (semU2 n L B r s))

/-- Limb vector of the x coordinate of Q, as assigned by the point
addition. -/
def semQX (n p L B : ℕ) {Pt : Type} [AddCommMonoid Pt] (G pkpt : Pt) (xc : Pt → ZMod p)
    (r s mh : AssignedInteger) : AssignedInteger :=
  canonLimbs L B ((xc (semQ n L B G pkpt r s mh)).val)

/-- Limb vector of the x coordinate of Q after the base-field reduction. -/
def semQXq (n p L B : ℕ) {Pt : Type} [AddCommMonoid Pt] (G pkpt : Pt) (xc : Pt → ZMod p)
    (r s mh : AssignedInteger) : AssignedInteger :=
  canonLimbs L B (intVal B (semQX n p L B G pkpt xc r s mh) % p)

/-- Limb vector of the x coordinate of Q after the second, scalar-field
reduction: the value compared against r by the final strict equality. -/
def semFinalX (n p L B : ℕ) {Pt : Type} [AddCommMonoid Pt] (G pkpt : Pt) (xc : Pt → ZMod p)
    (r s mh : AssignedInteger) : AssignedInteger :=
  canonLimbs L B (intVal B (semQXq n p L B G pkpt xc r s mh) % n)

/-- The twelve chip invocations of a complete verification run against the
semantic chips, in source order with their arguments and offsets. -/
def semTrace (n p L B : ℕ) {Pt : Type} [AddCommMonoid Pt] (G : Pt) (xc : Pt → ZMod p)
    (c : Costs) (sig : AssignedEcdsaSig) (pk : AssignedPublicKey Pt) (mh : AssignedInteger)
    (off : ℕ) : List (OpCall Pt) :=
  [OpCall.assertNotZero sig.r off,
   OpCall.assertNotZero sig.s (off + c.anz),
   OpCall.invert sig.s (off + c.anz + c.anz),
   OpCall.mulInt mh (semWL n L B sig.s) (off + c.anz + c.anz + c.inv),
   OpCall.mulInt sig.r (semWL n L B sig.s) (off + c.anz + c.anz + c.inv + c.mul),
   OpCall.assignPoint (some G) (off + c.anz + c.anz + c.inv + c.mul + c.mul),
   OpCall.eccMul (mkPoint L B xc G) (semU1 n L B mh sig.s) 2
     (off + c.anz + c.anz + c.inv + c.mul + c.mul + c.assignPoint),
   OpCall.eccMul pk.point (semU2 n L B sig.r sig.s) 2
     (off + c.anz + c.anz + c.inv + c.mul + c.mul + c.assignPoint + c.eccMul 2),
   OpCall.eccAdd (mkPoint L B xc (wmul 2 G (intVal B (semU1 n L B mh sig.s))))
     (mkPoint L B xc (wmul 2 pk.point.point (intVal B (semU2 n L B sig.r sig.s))))
     (off + c.anz + c.anz + c.inv + c.mul + c.mul + c.assignPoint + c.eccMul 2 + c.eccMul 2),
   OpCall.reduceBase (semQX n p L B G pk.point.point xc sig.r sig.s mh)
     (off + c.anz + c.anz + c.inv + c.mul + c.mul + c.assignPoint + c.eccMul 2 + c.eccMul 2
       + c.eccAdd),
   OpCall.reduceScalar (semQXq n p L B G pk.point.point xc sig.r sig.s mh)
     (off + c.anz + c.anz + c.inv + c.mul + c.mul + c.assignPoint + c.eccMul 2 + c.eccMul 2
       + c.eccAdd + c.reduce),
   OpCall.assertStrictEqual (semFinalX n p L B G pk.point.point xc sig.r sig.s mh) sig.r
     (off + c.anz + c.anz + c.inv + c.mul + c.mul + c.assignPoint + c.eccMul 2 + c.eccMul 2
       + c.eccAdd + c.reduce + c.reduce)]

/-- Modelled from the spec: the standard ECDSA signing procedure over the
configured curve (spec section 8, valid-signature acceptance).  With nonce
k, secret key sk and message hash h, the signature is r = x(k G) mod n and
s equal to the inverse of k times (h + r sk); signing restarts (here:
returns none) when k, r or s is zero. -/
def ecdsaSign (n p : ℕ) {Pt : Type} [AddCommMonoid Pt] [Module (ZMod n) Pt]
    (G : Pt) (xc : Pt → ZMod p) (sk k h : ZMod n) : Option (ZMod n × ZMod n) :=
  if k = 0 ∨ (((xc (k • G)).val : ℕ) : ZMod n) = 0
      ∨ zinv n k * (h + (((xc (k • G)).val : ℕ) : ZMod n) * sk) = 0 then none
  else some ((((xc (k • G)).val : ℕ) : ZMod n),
    zinv n k * (h + (((xc (k • G)).val : ℕ) : ZMod n) * sk))

/-- Closed form of a verification run against the semantic chips when r
and s are nonzero in-field values: all twelve chip calls are made in
source order, and the run succeeds exactly when the reduced x coordinate
of Q has the same limb vector as r. -/
lemma verify_semChips_run (n p L B : ℕ) {Pt : Type} [AddCommMonoid Pt]
    (G : Pt) (xc : Pt → ZMod p) (cw : ℕ) (c : Costs)
    (sig : AssignedEcdsaSig) (pk : AssignedPublicKey Pt) (mh : AssignedInteger) (off : ℕ)
    (hr0 : intVal B sig.r ≠ 0) (hrn : intVal B sig.r < n)
    (hs0 : intVal B sig.s ≠ 0) (hsn : intVal B sig.s < n) :
    verify (semChips n p L B G xc cw c) sig pk mh off =
      (semTrace n p L B G xc c sig pk mh off,
       if semFinalX n p L B G pk.point.point xc sig.r sig.s mh = sig.r
       then Except.ok (off + c.anz + c.anz + c.inv + c.mul + c.mul + c.assignPoint
         + c.eccMul 2 + c.eccMul 2 + c.eccAdd + c.reduce + c.reduce + c.strictEq)
       else Except.error Err.synthesis) := by
  have h1 : ¬ (intVal B sig.r = 0 ∨ n ≤ intVal B sig.r) := by omega
  have h2 : ¬ (intVal B sig.s = 0 ∨ n ≤ intVal B sig.s) := by omega
  have h3 : ¬ (((intVal B sig.s : ℕ) : ZMod n) = 0) := by
    rw [ZMod.natCast_zmod_eq_zero_iff_dvd]
    intro hdvd
    exact absurd (Nat.le_of_dvd (Nat.pos_of_ne_zero hs0) hdvd) (by omega)
  by_cases hc : semFinalX n p L B G pk.point.point xc sig.r sig.s mh = sig.r
  · simp only [semFinalX, semQXq, semQX, semQ, semU2, semU1, semWL, semW] at hc
    simp [verify, semChips, call, h1, h2, h3, AssignedPoint.getX, mkPoint, semTrace,
      semFinalX, semQXq, semQX, semQ, semU2, semU1, semWL, semW, hc]
  · simp only [semFinalX, semQXq, semQX, semQ, semU2, semU1, semWL, semW] at hc
    simp [verify, semChips, call, h1, h2, h3, AssignedPoint.getX, mkPoint, semTrace,
      semFinalX, semQXq, semQX, semQ, semU2, semU1, semWL, semW, hc]

/-- Anatomy of a verification run against arbitrary chips: success holds
exactly when every invoked operation succeeds; on success the twelve
invocations have the fixed shape list; on error the trace ends at the
failing operation, whose error is returned unchanged, and all earlier
operations succeeded; every scalar multiplication is invoked with window
size 2. -/
lemma verify_anatomy {ε Pt : Type} (ch : Chips ε Pt) (sig : AssignedEcdsaSig)
    (pk : AssignedPublicKey Pt) (mh : AssignedInteger) (off : ℕ) :
    (okB (verify ch sig pk mh off).2 = true ↔
       ∀ op ∈ (verify ch sig pk mh off).1, opErr ch op = none) ∧
    (okB (verify ch sig pk mh off).2 = true →
       (verify ch sig pk mh off).1.map opShape = fullShapeList) ∧
    (∀ e, (verify ch sig pk mh off).2 = Except.error e →
       ∃ op, (verify ch sig pk mh off).1.getLast? = some op ∧ opErr ch op = some e ∧
         ∀ op2 ∈ (verify ch sig pk mh off).1.dropLast, opErr ch op2 = none) ∧
    (∀ op ∈ (verify ch sig pk mh off).1,
       ∀ pt sc w o, op = OpCall.eccMul pt sc w o → w = 2) := by
  unfold verify
  cases e1 : ch.assertNotZero sig.r off with
  | error err => simp [call, opErr, opShape, fullShapeList, e1]
  | ok v1 =>
  obtain ⟨_, o1⟩ := v1
  simp only [call, andThen_ok]
  cases e2 : ch.assertNotZero sig.s o1 with
  | error err => simp [call, opErr, opShape, fullShapeList, e1, e2]
  | ok v2 =>
  obtain ⟨_, o2⟩ := v2
  simp only [call, andThen_ok]
  cases e3 : ch.invert sig.s o2 with
  | error err => simp [call, opErr, opShape, fullShapeList, e1, e2, e3]
  | ok v3 =>
  obtain ⟨sInv, o3⟩ := v3
  simp only [call, andThen_ok]
  cases e4 : ch.mulInt mh sInv.1 o3 with
  | error err => simp [call, opErr, opShape, fullShapeList, e1, e2, e3, e4]
  | ok v4 =>
  obtain ⟨u1, o4⟩ := v4
  simp only [call, andThen_ok]
  cases e5 : ch.mulInt sig.r sInv.1 o4 with
  | error err => simp [call, opErr, opShape, fullShapeList, e1, e2, e3, e4, e5]
  | ok v5 =>
  obtain ⟨u2, o5⟩ := v5
  simp only [call, andThen_ok]
  cases e6 : ch.assignPoint (some ch.generator) o5 with
  | error err => simp [call, opErr, opShape, fullShapeList, e1, e2, e3, e4, e5, e6]
  | ok v6 =>
  obtain ⟨eGen, o6⟩ := v6
  simp only [call, andThen_ok]
  cases e7 : ch.eccMul eGen u1 2 o6 with
  | error err =>
    simp [call, opErr, opShape, fullShapeList, e1, e2, e3, e4, e5, e6, e7]
    exact fun pt sc w o h1 h2 h3 h4 => h3.symm
  | ok v7 =>
  obtain ⟨g1, o7⟩ := v7
  simp only [call, andThen_ok]
  cases e8 : ch.eccMul pk.point u2 2 o7 with
  | error err =>
    simp [call, opErr, opShape, fullShapeList, e1, e2, e3, e4, e5, e6, e7, e8]
    exact ⟨fun pt sc w o h1 h2 h3 h4 => h3.symm, fun pt sc w o h1 h2 h3 h4 => h3.symm⟩
  | ok v8 =>
  obtain ⟨g2, o8⟩ := v8
  simp only [call, andThen_ok]
  cases e9 : ch.eccAdd g1 g2 o8 with
  | error err =>
    simp [call, opErr, opShape, fullShapeList, e1, e2, e3, e4, e5, e6, e7, e8, e9]
    exact ⟨fun pt sc w o h1 h2 h3 h4 => h3.symm, fun pt sc w o h1 h2 h3 h4 => h3.symm⟩
  | ok v9 =>
  obtain ⟨q, o9⟩ := v9
  simp only [call, andThen_ok]
  cases e10 : ch.reduceBase q.getX o9 with
  | error err =>
    simp [call, opErr, opShape, fullShapeList, e1, e2, e3, e4, e5, e6, e7, e8, e9, e10]
    exact ⟨fun pt sc w o h1 h2 h3 h4 => h3.symm, fun pt sc w o h1 h2 h3 h4 => h3.symm⟩
  | ok v10 =>
  obtain ⟨qxq, o10⟩ := v10
  simp only [call, andThen_ok]
  cases e11 : ch.reduceScalar qxq o10 with
  | error err =>
    simp [call, opErr, opShape, fullShapeList, e1, e2, e3, e4, e5, e6, e7, e8, e9, e10, e11]
    exact ⟨fun pt sc w o h1 h2 h3 h4 => h3.symm, fun pt sc w o h1 h2 h3 h4 => h3.symm⟩
  | ok v11 =>
  obtain ⟨qxr, o11⟩ := v11
  simp only [call, andThen_ok]
  cases e12 : ch.assertStrictEqual qxr sig.r o11 with
  | error err =>
    simp [call, opErr, opShape, fullShapeList, e1, e2, e3, e4, e5, e6, e7, e8, e9, e10, e11,
      e12]
    exact ⟨fun pt sc w o h1 h2 h3 h4 => h3.symm, fun pt sc w o h1 h2 h3 h4 => h3.symm⟩
  | ok v12 =>
  obtain ⟨_, o12⟩ := v12
  simp [call, opErr, opShape, fullShapeList, e1, e2, e3, e4, e5, e6, e7, e8, e9, e10, e11, e12]
  exact ⟨fun pt sc w o h1 h2 h3 h4 => h3.symm, fun pt sc w o h1 h2 h3 h4 => h3.symm⟩

/-- Concrete toy curve for witnesses: the group is ZMod 5 (a cyclic group
of prime order 5, acting as its own scalar field), the base field is
ZMod 7, the x-coordinate function sends a group element to its residue in
the base field. -/
def xcToy : ZMod 5 → ZMod 7 := fun z => ((z.val : ℕ) : ZMod 7)

/-- Concrete row costs for witnesses. -/
def costsToy : Costs := ⟨1, 1, 1, 1, fun w => w + 1, 1, 1, 1⟩

/-- Concrete semantic chips for witnesses: 4 limbs of 3 bits, generator 1,
caller-configured window size 3. -/
def chipsToy : Chips Err (ZMod 5) := semChips 5 7 4 8 (1 : ZMod 5) xcToy 3 costsToy

/-- Valid toy signature (r, s) = (1, 3) of message hash 1 under secret key
2 with nonce 1. -/
def sigToy : AssignedEcdsaSig := ⟨canonLimbs 4 8 1, canonLimbs 4 8 3⟩

/-- Toy public key 2 = sk G for sk = 2. -/
def pkToy : AssignedPublicKey (ZMod 5) := ⟨mkPoint 4 8 xcToy (2 : ZMod 5)⟩

/-- Toy message hash 1. -/
def msgToy : AssignedInteger := canonLimbs 4 8 1

/-- Toy signature with r = 0: rejected by the first nonzero assertion. -/
def sigZeroToy : AssignedEcdsaSig := ⟨canonLimbs 4 8 0, canonLimbs 4 8 3⟩

/-- Second valid toy signature (r, s) = (1, 4) of message hash 2 under the
same key, for comparing two successful runs. -/
def sigToy2 : AssignedEcdsaSig := ⟨canonLimbs 4 8 1, canonLimbs 4 8 4⟩

/-- Toy message hash 2. -/
def msgToy2 : AssignedInteger := canonLimbs 4 8 2

/-- Toy chips whose invert operation always reports a failure. -/
def chipsBadInv : Chips Err (ZMod 5) :=
  { chipsToy with invert := fun _ _ => Except.error Err.nonInvertible }

/-- C1: for every valid key pair over the configured curve (a group of
prime order n with generator G), every message hash h, and every
signature (r, s) produced by the standard signing procedure on h with
that key, the verify operation succeeds: all emitted constraints are
satisfied by the witness. -/
theorem verify_accepts_valid_signature
    (n p L B : ℕ) [hp : Fact (Nat.Prime n)] [NeZero p]
    (hn : n < B ^ L) (hpB : p < B ^ L)
    {Pt : Type} [AddCommMonoid Pt] [Module (ZMod n) Pt]
    (G : Pt) (xc : Pt → ZMod p) (cw : ℕ) (c : Costs)
    (sk k h r s : ZMod n)
    (hsig : ecdsaSign n p G xc sk k h = some (r, s)) (off : ℕ) :
    okB (verify (semChips n p L B G xc cw c)
      ⟨canonLimbs L B r.val, canonLimbs L B s.val⟩
      ⟨mkPoint L B xc (sk • G)⟩ (canonLimbs L B h.val) off).2 = true := by
  haveI : NeZero n := ⟨hp.out.ne_zero⟩
  rw [ecdsaSign] at hsig
  by_cases hcond : k = 0 ∨ (((xc (k • G)).val : ℕ) : ZMod n) = 0
      ∨ zinv n k * (h + (((xc (k • G)).val : ℕ) : ZMod n) * sk) = 0
  · rw [if_pos hcond] at hsig
    exact absurd hsig (by simp)
  rw [if_neg hcond] at hsig
  push_neg at hcond
  obtain ⟨hk, hr0z, hs0z⟩ := hcond
  have hpair := Option.some.inj hsig
  have hrdef : (((xc (k • G)).val : ℕ) : ZMod n) = r := congrArg Prod.fst hpair
  have hsdef : zinv n k * (h + (((xc (k • G)).val : ℕ) : ZMod n) * sk) = s :=
    congrArg Prod.snd hpair
  rw [hrdef] at hsdef hr0z hs0z
  have hrne : r ≠ 0 := hr0z
  have hsne : s ≠ 0 := by rw [hsdef] at hs0z; exact hs0z
  have hrvne : r.val ≠ 0 := fun hh => hrne ((ZMod.val_eq_zero r).mp hh)
  have hsvne : s.val ≠ 0 := fun hh => hsne ((ZMod.val_eq_zero s).mp hh)
  have hrun := verify_semChips_run n p L B G xc cw c
    ⟨canonLimbs L B r.val, canonLimbs L B s.val⟩ ⟨mkPoint L B xc (sk • G)⟩
    (canonLimbs L B h.val) off
    (by rw [intVal_canonLimbs L B _ (lt_trans (ZMod.val_lt r) hn)]; exact hrvne)
    (by rw [intVal_canonLimbs L B _ (lt_trans (ZMod.val_lt r) hn)]; exact ZMod.val_lt r)
    (by rw [intVal_canonLimbs L B _ (lt_trans (ZMod.val_lt s) hn)]; exact hsvne)
    (by rw [intVal_canonLimbs L B _ (lt_trans (ZMod.val_lt s) hn)]; exact ZMod.val_lt s)
  rw [hrun]
  have hscast : ((intVal B (canonLimbs L B s.val) : ℕ) : ZMod n) = s := by
    rw [intVal_canonLimbs L B _ (lt_trans (ZMod.val_lt s) hn)]
    exact ZMod.natCast_rightInverse s
  have hWL : semWL n L B (canonLimbs L B s.val) = canonLimbs L B (zinv n s).val := by
    rw [semWL, semW, hscast]
  have hWcast : ((intVal B (semWL n L B (canonLimbs L B s.val)) : ℕ) : ZMod n) = zinv n s := by
    rw [hWL, intVal_canonLimbs L B _ (lt_trans (ZMod.val_lt _) hn)]
    exact ZMod.natCast_rightInverse _
  have hmcast : ((intVal B (canonLimbs L B h.val) : ℕ) : ZMod n) = h := by
    rw [intVal_canonLimbs L B _ (lt_trans (ZMod.val_lt h) hn)]
    exact ZMod.natCast_rightInverse h
  have hrcast : ((intVal B (canonLimbs L B r.val) : ℕ) : ZMod n) = r := by
    rw [intVal_canonLimbs L B _ (lt_trans (ZMod.val_lt r) hn)]
    exact ZMod.natCast_rightInverse r
  have hU1 : semU1 n L B (canonLimbs L B h.val) (canonLimbs L B s.val) =
      canonLimbs L B (h * zinv n s).val := by
    rw [semU1, hmcast, hWcast]
  have hU2 : semU2 n L B (canonLimbs L B r.val) (canonLimbs L B s.val) =
      canonLimbs L B (r * zinv n s).val := by
    rw [semU2, hrcast, hWcast]
  have hg1 : wmul 2 G (intVal B (semU1 n L B (canonLimbs L B h.val) (canonLimbs L B s.val))) =
      (h * zinv n s) • G := by
    rw [hU1, intVal_canonLimbs L B _ (lt_trans (ZMod.val_lt _) hn),
      wmul_eq 2 (by norm_num), ← Nat.cast_smul_eq_nsmul (ZMod n),
      ZMod.natCast_rightInverse _]
  have hg2 : wmul 2 (sk • G)
      (intVal B (semU2 n L B (canonLimbs L B r.val) (canonLimbs L B s.val))) =
      ((r * zinv n s) * sk) • G := by
    rw [hU2, intVal_canonLimbs L B _ (lt_trans (ZMod.val_lt _) hn),
      wmul_eq 2 (by norm_num)]
    rw [← Nat.cast_smul_eq_nsmul (ZMod n), ZMod.natCast_rightInverse _, smul_smul]
  have hs1 : s * zinv n s = 1 := zinv_mul_cancel n s hsne
  have hk1 : k * zinv n k = 1 := zinv_mul_cancel n k hk
  have hks : h + r * sk = k * s := by
    calc h + r * sk = (k * zinv n k) * (h + r * sk) := by rw [hk1, one_mul]
    _ = k * (zinv n k * (h + r * sk)) := by ring
    _ = k * s := by rw [hsdef]
  have halg : h * zinv n s + (r * zinv n s) * sk = k := by
    calc h * zinv n s + (r * zinv n s) * sk = (h + r * sk) * zinv n s := by ring
    _ = (k * s) * zinv n s := by rw [hks]
    _ = k * (s * zinv n s) := by ring
    _ = k := by rw [hs1, mul_one]
  have hQ : semQ n L B G (mkPoint L B xc (sk • G)).point
      (canonLimbs L B r.val) (canonLimbs L B s.val) (canonLimbs L B h.val) = k • G := by
    show semQ n L B G (sk • G) (canonLimbs L B r.val) (canonLimbs L B s.val)
      (canonLimbs L B h.val) = k • G
    rw [semQ, hg1, hg2, ← add_smul, halg]
  have hfinal : semFinalX n p L B G (mkPoint L B xc (sk • G)).point xc
      (canonLimbs L B r.val) (canonLimbs L B s.val) (canonLimbs L B h.val) =
      canonLimbs L B r.val := by
    rw [semFinalX, semQXq, semQX, hQ,
      intVal_canonLimbs L B _ (lt_trans (ZMod.val_lt _) hpB),
      Nat.mod_eq_of_lt (ZMod.val_lt _),
      intVal_canonLimbs L B _ (lt_trans (ZMod.val_lt _) hpB)]
    congr 1
    rw [← hrdef, ZMod.val_natCast]
  simp only [hfinal]
  simp

/-- C2: verify fails whenever r = 0 or s = 0 as a scalar-field element,
regardless of the other inputs; the nonzero assertion on r is the first
emitted operation and the nonzero assertion on s the second (before any
arithmetic step), and no stand-alone range assertion is issued. -/
theorem verify_rejects_zero_r_or_s
    (n p L B : ℕ) {Pt : Type} [AddCommMonoid Pt]
    (G : Pt) (xc : Pt → ZMod p) (cw : ℕ) (c : Costs)
    (sig : AssignedEcdsaSig) (pk : AssignedPublicKey Pt) (mh : AssignedInteger) (off : ℕ)
    (hzero : intVal B sig.r % n = 0 ∨ intVal B sig.s % n = 0) :
    okB (verify (semChips n p L B G xc cw c) sig pk mh off).2 = false ∧
    (verify (semChips n p L B G xc cw c) sig pk mh off).1.head? =
      some (OpCall.assertNotZero sig.r off) ∧
    ((verify (semChips n p L B G xc cw c) sig pk mh off).1.drop 1 = [] ∨
      ((verify (semChips n p L B G xc cw c) sig pk mh off).1.drop 1).head? =
        some (OpCall.assertNotZero sig.s (off + c.anz))) ∧
    ∀ op ∈ (verify (semChips n p L B G xc cw c) sig pk mh off).1,
      op.isRangeCheck = false := by
  have hcases : (intVal B sig.r = 0 ∨ n ≤ intVal B sig.r) ∨
      (¬ (intVal B sig.r = 0 ∨ n ≤ intVal B sig.r) ∧
        (intVal B sig.s = 0 ∨ n ≤ intVal B sig.s)) := by
    rcases hzero with hr | hs
    · left
      rcases Nat.eq_zero_or_pos (intVal B sig.r) with h0 | hpos
      · exact Or.inl h0
      · exact Or.inr (Nat.le_of_dvd hpos (Nat.dvd_of_mod_eq_zero hr))
    · by_cases hr1 : intVal B sig.r = 0 ∨ n ≤ intVal B sig.r
      · exact Or.inl hr1
      · refine Or.inr ⟨hr1, ?_⟩
        rcases Nat.eq_zero_or_pos (intVal B sig.s) with h0 | hpos
        · exact Or.inl h0
        · exact Or.inr (Nat.le_of_dvd hpos (Nat.dvd_of_mod_eq_zero hs))
  rcases hcases with hfail | ⟨hok1, hfail⟩
  · simp [verify, semChips, call, hfail, OpCall.isRangeCheck]
  · simp [verify, semChips, call, hok1, hfail, OpCall.isRangeCheck]

/-- C3: on a call whose inputs pass the nonzero and in-field checks,
verify performs, in source order: the two nonzero assertions, the
inversion w of s in the scalar field, the scalar-field multiplications
u1 = msgHash w and u2 = r w, the assignment of the curve generator as an
in-circuit point, the windowed scalar multiplications g1 = u1 G and
g2 = u2 pk, the point addition Q = g1 + g2, the two reductions of the x
coordinate of Q, and the final strict equality; and the computed w is the
scalar-field inverse of s. -/
theorem verify_computation_order
    (n p L B : ℕ) [Fact (Nat.Prime n)] {Pt : Type} [AddCommMonoid Pt]
    (G : Pt) (xc : Pt → ZMod p) (cw : ℕ) (c : Costs)
    (sig : AssignedEcdsaSig) (pk : AssignedPublicKey Pt) (mh : AssignedInteger) (off : ℕ)
    (hr0 : intVal B sig.r ≠ 0) (hrn : intVal B sig.r < n)
    (hs0 : intVal B sig.s ≠ 0) (hsn : intVal B sig.s < n) :
    (verify (semChips n p L B G xc cw c) sig pk mh off).1 =
      [OpCall.assertNotZero sig.r off,
       OpCall.assertNotZero sig.s (off + c.anz),
       OpCall.invert sig.s (off + c.anz + c.anz),
       OpCall.mulInt mh (semWL n L B sig.s) (off + c.anz + c.anz + c.inv),
       OpCall.mulInt sig.r (semWL n L B sig.s) (off + c.anz + c.anz + c.inv + c.mul),
       OpCall.assignPoint (some G) (off + c.anz + c.anz + c.inv + c.mul + c.mul),
       OpCall.eccMul (mkPoint L B xc G) (semU1 n L B mh sig.s) 2
         (off + c.anz + c.anz + c.inv + c.mul + c.mul + c.assignPoint),
       OpCall.eccMul pk.point (semU2 n L B sig.r sig.s) 2
         (off + c.anz + c.anz + c.inv + c.mul + c.mul + c.assignPoint + c.eccMul 2),
       OpCall.eccAdd (mkPoint L B xc (wmul 2 G (intVal B (semU1 n L B mh sig.s))))
         (mkPoint L B xc (wmul 2 pk.point.point (intVal B (semU2 n L B sig.r sig.s))))
         (off + c.anz + c.anz + c.inv + c.mul + c.mul + c.assignPoint + c.eccMul 2
           + c.eccMul 2),
       OpCall.reduceBase (semQX n p L B G pk.point.point xc sig.r sig.s mh)
         (off + c.anz + c.anz + c.inv + c.mul + c.mul + c.assignPoint + c.eccMul 2
           + c.eccMul 2 + c.eccAdd),
       OpCall.reduceScalar (semQXq n p L B G pk.point.point xc sig.r sig.s mh)
         (off + c.anz + c.anz + c.inv + c.mul + c.mul + c.assignPoint + c.eccMul 2
           + c.eccMul 2 + c.eccAdd + c.reduce),
       OpCall.assertStrictEqual (semFinalX n p L B G pk.point.point xc sig.r sig.s mh) sig.r
         (off + c.anz + c.anz + c.inv + c.mul + c.mul + c.assignPoint + c.eccMul 2
           + c.eccMul 2 + c.eccAdd + c.reduce + c.reduce)] ∧
    ((intVal B sig.s : ℕ) : ZMod n) * semW n B sig.s = 1 := by
  constructor
  · rw [verify_semChips_run n p L B G xc cw c sig pk mh off hr0 hrn hs0 hsn]
    rfl
  · have hne : ((intVal B sig.s : ℕ) : ZMod n) ≠ 0 := by
      intro h0
      rw [ZMod.natCast_zmod_eq_zero_iff_dvd] at h0
      have := Nat.le_of_dvd (Nat.pos_of_ne_zero hs0) h0
      omega
    exact zinv_mul_cancel n _ hne

/-- C5: after computing Q, verify reduces the x coordinate of Q in two
stages, in a fixed order: the tenth operation is the base-field reduction
of the x coordinate of Q (taking its limb value modulo p), and the
eleventh, strictly after it, is the scalar-field reduction of exactly the
base-reduced value (taking its limb value modulo n). -/
theorem verify_two_stage_reduction
    (n p L B : ℕ) {Pt : Type} [AddCommMonoid Pt]
    (G : Pt) (xc : Pt → ZMod p) (cw : ℕ) (c : Costs)
    (sig : AssignedEcdsaSig) (pk : AssignedPublicKey Pt) (mh : AssignedInteger) (off : ℕ)
    (hr0 : intVal B sig.r ≠ 0) (hrn : intVal B sig.r < n)
    (hs0 : intVal B sig.s ≠ 0) (hsn : intVal B sig.s < n) :
    (verify (semChips n p L B G xc cw c) sig pk mh off).1[9]? =
      some (OpCall.reduceBase (semQX n p L B G pk.point.point xc sig.r sig.s mh)
        (off + c.anz + c.anz + c.inv + c.mul + c.mul + c.assignPoint + c.eccMul 2
          + c.eccMul 2 + c.eccAdd)) ∧
    (verify (semChips n p L B G xc cw c) sig pk mh off).1[10]? =
      some (OpCall.reduceScalar (semQXq n p L B G pk.point.point xc sig.r sig.s mh)
        (off + c.anz + c.anz + c.inv + c.mul + c.mul + c.assignPoint + c.eccMul 2
          + c.eccMul 2 + c.eccAdd + c.reduce)) ∧
    semQX n p L B G pk.point.point xc sig.r sig.s mh =
      canonLimbs L B ((xc (semQ n L B G pk.point.point sig.r sig.s mh)).val) ∧
    semQXq n p L B G pk.point.point xc sig.r sig.s mh =
      canonLimbs L B (intVal B (semQX n p L B G pk.point.point xc sig.r sig.s mh) % p) ∧
    semFinalX n p L B G pk.point.point xc sig.r sig.s mh =
      canonLimbs L B (intVal B (semQXq n p L B G pk.point.point xc sig.r sig.s mh) % n) := by
  rw [verify_semChips_run n p L B G xc cw c sig pk mh off hr0 hrn hs0 hsn]
  exact ⟨rfl, rfl, rfl, rfl, rfl⟩

/-- C6: the final check of verify is a strict, cell-by-cell equality
between the limb vector of the reduced-and-reinterpreted x coordinate of
Q and the limb vector of r: it is the last emitted operation, and the
whole run succeeds exactly when the two limb vectors are equal as lists.
-/
theorem verify_final_strict_equality
    (n p L B : ℕ) {Pt : Type} [AddCommMonoid Pt]
    (G : Pt) (xc : Pt → ZMod p) (cw : ℕ) (c : Costs)
    (sig : AssignedEcdsaSig) (pk : AssignedPublicKey Pt) (mh : AssignedInteger) (off : ℕ)
    (hr0 : intVal B sig.r ≠ 0) (hrn : intVal B sig.r < n)
    (hs0 : intVal B sig.s ≠ 0) (hsn : intVal B sig.s < n) :
    (verify (semChips n p L B G xc cw c) sig pk mh off).1.getLast? =
      some (OpCall.assertStrictEqual (semFinalX n p L B G pk.point.point xc sig.r sig.s mh)
        sig.r (off + c.anz + c.anz + c.inv + c.mul + c.mul + c.assignPoint + c.eccMul 2
          + c.eccMul 2 + c.eccAdd + c.reduce + c.reduce)) ∧
    (okB (verify (semChips n p L B G xc cw c) sig pk mh off).2 = true ↔
      semFinalX n p L B G pk.point.point xc sig.r sig.s mh = sig.r) := by
  rw [verify_semChips_run n p L B G xc cw c sig pk mh off hr0 hrn hs0 hsn]
  refine ⟨rfl, ?_⟩
  by_cases hc : semFinalX n p L B G pk.point.point xc sig.r sig.s mh = sig.r
  · simp [hc]
  · simp [hc]

/-- C4 counterexample: the caller configuration carries window size 3,
yet both scalar multiplications of a concrete verification run are
invoked with window size 2: the window size used by verify is not the one
supplied by the caller configuration. -/
theorem verify_window_counterexample :
    (semChips 5 7 4 8 (1 : ZMod 5) xcToy 3 costsToy).configuredWindow = 3 ∧
    windowsOf (verify (semChips 5 7 4 8 (1 : ZMod 5) xcToy 3 costsToy)
      sigToy pkToy msgToy 0).1 = [2, 2] := by decide

/-- C4 amended: the window size used for both scalar multiplications
inside verify is fixed by the gadget to the literal 2, for every chips
instance and all inputs, rather than being supplied by the caller
configuration; the window size is not a correctness parameter: every
window size of at least 1 makes windowed double-and-add compute the
scalar multiple, so all windows yield identical result values. -/
theorem verify_window_fixed_at_two :
    (∀ (ε Pt : Type) (ch : Chips ε Pt) (sig : AssignedEcdsaSig)
       (pk : AssignedPublicKey Pt) (mh : AssignedInteger) (off : ℕ)
       (op : OpCall Pt), op ∈ (verify ch sig pk mh off).1 →
       ∀ pt sc w o, op = OpCall.eccMul pt sc w o → w = 2) ∧
    (∀ (P : Type) [AddCommMonoid P] (w : ℕ), 1 ≤ w → ∀ (pt : P) (k : ℕ),
       wmul w pt k = k • pt) := by
  constructor
  · intro ε Pt ch sig pk mh off op hop pt sc w o hw
    exact (verify_anatomy ch sig pk mh off).2.2.2 op hop pt sc w o hw
  · intro P instP w hw pt k
    exact wmul_eq w hw pt k

/-- C7: verify succeeds exactly when every chip operation it invoked
succeeded; on failure, the error of the failing operation is returned
unchanged (no retries, no transformation), every earlier operation
succeeded, and the invocation trace ends at the failing operation, so no
later operation is invoked. -/
theorem verify_error_propagation (ε Pt : Type) (ch : Chips ε Pt) (sig : AssignedEcdsaSig)
    (pk : AssignedPublicKey Pt) (mh : AssignedInteger) (off : ℕ) :
    (okB (verify ch sig pk mh off).2 = true ↔
       ∀ op ∈ (verify ch sig pk mh off).1, opErr ch op = none) ∧
    (∀ e, (verify ch sig pk mh off).2 = Except.error e →
       ∃ op, (verify ch sig pk mh off).1.getLast? = some op ∧ opErr ch op = some e ∧
         ∀ op2 ∈ (verify ch sig pk mh off).1.dropLast, opErr ch op2 = none) :=
  ⟨(verify_anatomy ch sig pk mh off).1, (verify_anatomy ch sig pk mh off).2.2.1⟩

/-- C8: if the two nonzero assertions succeed but the chip-level
inversion of s fails, verify fails with exactly that error: the failure
is surfaced unchanged and no operation after the invert is invoked. -/
theorem verify_invert_failure_fatal (ε Pt : Type) (ch : Chips ε Pt) (sig : AssignedEcdsaSig)
    (pk : AssignedPublicKey Pt) (mh : AssignedInteger) (off o1 o2 : ℕ) (e : ε)
    (h1 : ch.assertNotZero sig.r off = Except.ok ((), o1))
    (h2 : ch.assertNotZero sig.s o1 = Except.ok ((), o2))
    (h3 : ch.invert sig.s o2 = Except.error e) :
    verify ch sig pk mh off =
      ([OpCall.assertNotZero sig.r off, OpCall.assertNotZero sig.s o1,
        OpCall.invert sig.s o2], Except.error e) := by
  unfold verify
  rw [h1]
  simp only [call, andThen_ok]
  rw [h2]
  simp only [call, andThen_ok]
  rw [h3]
  simp [call]

/-- C9: two verification calls against the same chips (the same circuit
shape: curve, limb width, window size) that both succeed invoke exactly
the same sequence of operation shapes, whatever the witness values of
signature, public key and message hash: which constraint kinds are
present, with which window sizes, and in which order does not depend on
witness values. -/
theorem verify_trace_shape_witness_independent (ε Pt : Type) (ch : Chips ε Pt)
    (sig1 : AssignedEcdsaSig) (pk1 : AssignedPublicKey Pt) (mh1 : AssignedInteger) (off1 : ℕ)
    (sig2 : AssignedEcdsaSig) (pk2 : AssignedPublicKey Pt) (mh2 : AssignedInteger) (off2 : ℕ)
    (h1 : okB (verify ch sig1 pk1 mh1 off1).2 = true)
    (h2 : okB (verify ch sig2 pk2 mh2 off2).2 = true) :
    (verify ch sig1 pk1 mh1 off1).1.map opShape =
      (verify ch sig2 pk2 mh2 off2).1.map opShape := by
  rw [(verify_anatomy ch sig1 pk1 mh1 off1).2.1 h1,
    (verify_anatomy ch sig2 pk2 mh2 off2).2.1 h2]

/-- C10: the row cursor is the only state verify threads: the offsets at
which the successive chip operations are invoked form a monotonically
nondecreasing chain starting at the initial offset (the cursor is never
decreased or reset within one call), and when the call succeeds the
returned final offset bounds every offset in the chain. -/
theorem verify_row_cursor_monotone (n p L B : ℕ) {Pt : Type} [AddCommMonoid Pt]
    (G : Pt) (xc : Pt → ZMod p) (cw : ℕ) (c : Costs)
    (sig : AssignedEcdsaSig) (pk : AssignedPublicKey Pt) (mh : AssignedInteger) (off : ℕ) :
    List.Chain' (· ≤ ·)
      (off :: (verify (semChips n p L B G xc cw c) sig pk mh off).1.map opOffset) ∧
    ∀ fo, (verify (semChips n p L B G xc cw c) sig pk mh off).2 = Except.ok fo →
      ∀ x ∈ off :: (verify (semChips n p L B G xc cw c) sig pk mh off).1.map opOffset,
        x ≤ fo := by
  by_cases h1 : intVal B sig.r = 0 ∨ n ≤ intVal B sig.r
  · constructor
    · simp [verify, semChips, call, h1, opOffset]
    · intro fo hfo
      simp [verify, semChips, call, h1] at hfo
  by_cases h2 : intVal B sig.s = 0 ∨ n ≤ intVal B sig.s
  · constructor
    · simp [verify, semChips, call, h1, h2, opOffset, List.chain'_cons,
        List.chain'_singleton]
    · intro fo hfo
      simp [verify, semChips, call, h1, h2] at hfo
  have hr := not_or.mp h1
  have hs := not_or.mp h2
  rw [verify_semChips_run n p L B G xc cw c sig pk mh off hr.1 (by omega) hs.1 (by omega)]
  constructor
  · simp [semTrace, opOffset, List.chain'_cons]
  · intro fo hfo
    by_cases hc : semFinalX n p L B G pk.point.point xc sig.r sig.s mh = sig.r
    · simp only [hc, if_pos, if_true, ite_true] at hfo
      have hfo2 : off + c.anz + c.anz + c.inv + c.mul + c.mul + c.assignPoint + c.eccMul 2
          + c.eccMul 2 + c.eccAdd + c.reduce + c.reduce + c.strictEq = fo := by
        simpa using hfo
      intro x hx
      simp only [semTrace, List.map_cons, List.map_nil, opOffset, List.mem_cons,
        List.not_mem_nil, or_false] at hx
      rcases hx with h | h | h | h | h | h | h | h | h | h | h | h | h <;> omega
    · simp [hc] at hfo

/-- Witness for C1 at the toy curve: the signature (1, 3) of message
hash 1 under secret key 2 and nonce 1 is accepted. -/
theorem verify_accepts_valid_signature_witness :
    okB (verify (semChips 5 7 4 8 (1 : ZMod 5) xcToy 3 costsToy)
      ⟨canonLimbs 4 8 (1 : ZMod 5).val, canonLimbs 4 8 (3 : ZMod 5).val⟩
      ⟨mkPoint 4 8 xcToy ((2 : ZMod 5) • (1 : ZMod 5))⟩
      (canonLimbs 4 8 (1 : ZMod 5).val) 0).2 = true := by
  have hsig : ecdsaSign 5 7 (1 : ZMod 5) xcToy 2 1 1 = some (1, 3) := by decide
  haveI : Fact (Nat.Prime 5) := ⟨by norm_num⟩
  haveI : NeZero (7 : ℕ) := ⟨by norm_num⟩
  exact verify_accepts_valid_signature 5 7 4 8 (by norm_num) (by norm_num)
    (1 : ZMod 5) xcToy 3 costsToy 2 1 1 1 3 hsig 0

/-- Witness for C2 at the toy instance with r = 0. -/
theorem verify_rejects_zero_r_or_s_witness :
    okB (verify (semChips 5 7 4 8 (1 : ZMod 5) xcToy 3 costsToy)
      sigZeroToy pkToy msgToy 0).2 = false ∧
    (verify (semChips 5 7 4 8 (1 : ZMod 5) xcToy 3 costsToy)
      sigZeroToy pkToy msgToy 0).1.head? =
      some ((OpCall.assertNotZero sigZeroToy.r 0 : OpCall (ZMod 5))) ∧
    OpCall.isRangeCheck ((OpCall.assertNotZero sigZeroToy.r 0 : OpCall (ZMod 5))) = false := by
  have h := verify_rejects_zero_r_or_s 5 7 4 8 (1 : ZMod 5) xcToy 3 costsToy sigZeroToy
    pkToy msgToy 0 (by decide)
  exact ⟨h.1, h.2.1, h.2.2.2 ((OpCall.assertNotZero sigZeroToy.r 0 : OpCall (ZMod 5))) (by decide)⟩

/-- Witness for C3 at the toy instance. -/
theorem verify_computation_order_witness :
    (verify (semChips 5 7 4 8 (1 : ZMod 5) xcToy 3 costsToy) sigToy pkToy msgToy 0).1 =
      semTrace 5 7 4 8 (1 : ZMod 5) xcToy costsToy sigToy pkToy msgToy 0 ∧
    ((intVal 8 sigToy.s : ℕ) : ZMod 5) * semW 5 8 sigToy.s = 1 := by
  haveI : Fact (Nat.Prime 5) := ⟨by norm_num⟩
  exact verify_computation_order 5 7 4 8 (1 : ZMod 5) xcToy 3 costsToy sigToy pkToy
    msgToy 0 (by decide) (by decide) (by decide) (by decide)

/-- Witness for the amended C4: a concrete scalar-multiplication
invocation of a toy run has window size 2, and windowed double-and-add
with the caller-configured window size 3 agrees with the scalar multiple.
-/
theorem verify_window_fixed_at_two_witness :
    (2 : ℕ) = 2 ∧ wmul 3 (2 : ZMod 5) 4 = (4 : ℕ) • (2 : ZMod 5) := by
  constructor
  · exact verify_window_fixed_at_two.1 Err (ZMod 5) chipsToy sigToy pkToy msgToy 0
      (OpCall.eccMul (mkPoint 4 8 xcToy (1 : ZMod 5)) (semU1 5 4 8 msgToy sigToy.s) 2 6)
      (by decide) (mkPoint 4 8 xcToy (1 : ZMod 5)) (semU1 5 4 8 msgToy sigToy.s) 2 6 rfl
  · exact verify_window_fixed_at_two.2 (ZMod 5) 3 (by norm_num) (2 : ZMod 5) 4

/-- Witness for C5 at the toy instance. -/
theorem verify_two_stage_reduction_witness :
    (verify (semChips 5 7 4 8 (1 : ZMod 5) xcToy 3 costsToy) sigToy pkToy msgToy 0).1[9]? =
      some (OpCall.reduceBase
        (semQX 5 7 4 8 (1 : ZMod 5) pkToy.point.point xcToy sigToy.r sigToy.s msgToy) 13) ∧
    (verify (semChips 5 7 4 8 (1 : ZMod 5) xcToy 3 costsToy) sigToy pkToy msgToy 0).1[10]? =
      some (OpCall.reduceScalar
        (semQXq 5 7 4 8 (1 : ZMod 5) pkToy.point.point xcToy sigToy.r sigToy.s msgToy) 14) ∧
    semQX 5 7 4 8 (1 : ZMod 5) pkToy.point.point xcToy sigToy.r sigToy.s msgToy =
      canonLimbs 4 8 ((xcToy (semQ 5 4 8 (1 : ZMod 5) pkToy.point.point sigToy.r sigToy.s
        msgToy)).val) ∧
    semQXq 5 7 4 8 (1 : ZMod 5) pkToy.point.point xcToy sigToy.r sigToy.s msgToy =
      canonLimbs 4 8 (intVal 8 (semQX 5 7 4 8 (1 : ZMod 5) pkToy.point.point xcToy sigToy.r
        sigToy.s msgToy) % 7) ∧
    semFinalX 5 7 4 8 (1 : ZMod 5) pkToy.point.point xcToy sigToy.r sigToy.s msgToy =
      canonLimbs 4 8 (intVal 8 (semQXq 5 7 4 8 (1 : ZMod 5) pkToy.point.point xcToy sigToy.r
        sigToy.s msgToy) % 5) :=
  verify_two_stage_reduction 5 7 4 8 (1 : ZMod 5) xcToy 3 costsToy sigToy pkToy msgToy 0
    (by decide) (by decide) (by decide) (by decide)

/-- Witness for C6 at the toy instance. -/
theorem verify_final_strict_equality_witness :
    (verify (semChips 5 7 4 8 (1 : ZMod 5) xcToy 3 costsToy) sigToy pkToy
        msgToy 0).1.getLast? =
      some (OpCall.assertStrictEqual
        (semFinalX 5 7 4 8 (1 : ZMod 5) pkToy.point.point xcToy sigToy.r sigToy.s msgToy)
        sigToy.r 15) ∧
    (okB (verify (semChips 5 7 4 8 (1 : ZMod 5) xcToy 3 costsToy) sigToy pkToy
        msgToy 0).2 = true ↔
      semFinalX 5 7 4 8 (1 : ZMod 5) pkToy.point.point xcToy sigToy.r sigToy.s msgToy =
        sigToy.r) :=
  verify_final_strict_equality 5 7 4 8 (1 : ZMod 5) xcToy 3 costsToy sigToy pkToy msgToy 0
    (by decide) (by decide) (by decide) (by decide)

/-- Witness for C7: a successful toy run, certified through the
characterization that every invoked operation succeeded. -/
theorem verify_error_propagation_witness :
    okB (verify chipsToy sigToy pkToy msgToy 0).2 = true :=
  (verify_error_propagation Err (ZMod 5) chipsToy sigToy pkToy msgToy 0).1.mpr (by decide)

/-- Witness for C8: with chips whose inversion fails, the toy run stops
at the invert call and surfaces its error. -/
theorem verify_invert_failure_fatal_witness :
    verify chipsBadInv sigToy pkToy msgToy 0 =
      ([OpCall.assertNotZero sigToy.r 0, OpCall.assertNotZero sigToy.s 1,
        OpCall.invert sigToy.s 2], Except.error Err.nonInvertible) :=
  verify_invert_failure_fatal Err (ZMod 5) chipsBadInv sigToy pkToy msgToy 0 1 2
    Err.nonInvertible (by rfl) (by rfl) (by rfl)

/-- Witness for C9: two successful toy runs on different witness values
(different signature, message hash and starting offset) have the same
operation-shape sequence. -/
theorem verify_trace_shape_witness_independent_witness :
    (verify chipsToy sigToy pkToy msgToy 0).1.map opShape =
      (verify chipsToy sigToy2 pkToy msgToy2 5).1.map opShape :=
  verify_trace_shape_witness_independent Err (ZMod 5) chipsToy sigToy pkToy msgToy 0
    sigToy2 pkToy msgToy2 5 (by decide) (by decide)

/-- Witness for C10 at the toy instance: the offset chain of a run is
monotone, and the initial offset is bounded by the returned final offset
16. -/
theorem verify_row_cursor_monotone_witness :
    List.Chain' (· ≤ ·) (0 :: (verify (semChips 5 7 4 8 (1 : ZMod 5) xcToy 3 costsToy)
      sigToy pkToy msgToy 0).1.map opOffset) ∧ (0 : ℕ) ≤ 16 := by
  have h := verify_row_cursor_monotone 5 7 4 8 (1 : ZMod 5) xcToy 3 costsToy sigToy pkToy
    msgToy 0
  exact ⟨h.1, h.2 16 (by rfl) 0 (by decide)⟩

end Halo2Ecdsa
